import Mathlib

/-!
Verification of the feature-layout core of `ideogram.py`
(`chromosome_collections`), a script that turns a table of genomic
intervals plus a per-chromosome vertical offset map into polygon batches.

The pandas `DataFrame` is embedded as a list of column names together
with rows of cells; cell access by column label, column assignment,
column deletion and `groupby` are modelled directly after pandas
semantics (label lookup raises `KeyError` when the label is absent;
`groupby` with the default `sort=True` visits group keys in sorted
order while keeping each group's rows in their original order).
Floating-point y coordinates are modelled as rationals; genomic
coordinates are integers.  Failures (`KeyError`) are modelled with
`Except String`.
-/

/-- A cell of the table: the script only ever stores integers (genomic
coordinates, derived widths) and strings (chromosome names, colour
references) in the columns the layout core touches. -/
inductive Value where
  | int : Int → Value
  | str : String → Value
deriving DecidableEq, Repr

/-- Integer cells cast to the rational coordinate plane; the layout core
only applies this to the numeric `start`/`width` cells (a malformed
non-numeric coordinate fails at the parsing boundary, outside the core,
per the script's input assumptions). -/
def Value.toRat : Value → Rat
  | .int n => (n : Rat)
  | .str _ => 0

/-- The cell rendered as text, for `KeyError` messages. -/
def Value.text : Value → String
  | .int n => toString n
  | .str s => s

/-- Elementwise column subtraction `df['end'] - df['start']`; the script
only subtracts numeric columns. -/
def Value.sub : Value → Value → Value
  | .int a, .int b => .int (a - b)
  | _, _ => .int 0

/-- The pandas ordering of group keys, restricted to the cell values the
script groups on (pandas sorts the distinct keys; the script's keys are
chromosome-name strings). -/
def Value.le : Value → Value → Bool
  | .int a, .int b => a ≤ b
  | .str a, .str b => a ≤ b
  | .int _, .str _ => true
  | .str _, .int _ => false

/-- A pandas `DataFrame`: shared column labels and rows of cells. -/
structure DataFrame where
  cols : List String
  rows : List (List Value)
deriving DecidableEq, Repr

/-- Well-formed frame: every row has one cell per column (always true of
a real pandas frame). -/
def DataFrame.WF (df : DataFrame) : Prop :=
  ∀ r ∈ df.rows, r.length = df.cols.length

/-- Position of a column label in the label list (pandas label lookup). -/
def colIndex (cols : List String) (c : String) : Option Nat :=
  match cols with
  | [] => none
  | x :: t => if x == c then some 0 else (colIndex t c).map (· + 1)

/-- `df[c]`: the column of cells under label `c`; `KeyError` when the
label is absent, as in pandas. -/
def getCol (df : DataFrame) (c : String) : Except String (List Value) :=
  match colIndex df.cols c with
  | none => .error ("KeyError: " ++ c)
  | some i => .ok (df.rows.map (fun r => r.getD i (Value.int 0)))

/-- `df[c] = vals`: overwrite the column when the label exists, append a
new column otherwise (pandas assignment). -/
def setCol (df : DataFrame) (c : String) (vals : List Value) : DataFrame :=
  match colIndex df.cols c with
  | none =>
      { cols := df.cols ++ [c],
        rows := (df.rows.zip vals).map (fun p => p.1 ++ [p.2]) }
  | some i =>
      { cols := df.cols,
        rows := (df.rows.zip vals).map (fun p => p.1.set i p.2) }

/-- `del df[c]`: drop the column (the script only deletes a column it
just added, so the absent-label case never fires). -/
def delCol (df : DataFrame) (c : String) : DataFrame :=
  match colIndex df.cols c with
  | none => df
  | some i => { cols := df.cols.eraseIdx i, rows := df.rows.map (·.eraseIdx i) }

/-- Duplicate removal keeping first occurrences (the distinct group keys). -/
def dedupAux (seen : List Value) : List Value → List Value
  | [] => []
  | a :: t => if a ∈ seen then dedupAux seen t else a :: dedupAux (a :: seen) t

/-- The distinct values of a key column, in order of first appearance. -/
def dedup (l : List Value) : List Value := dedupAux [] l

/-- Ordered insertion for the group-key sort. -/
def insertLe (a : Value) : List Value → List Value
  | [] => [a]
  | b :: t => if Value.le a b then a :: b :: t else b :: insertLe a t

/-- Sorting of the distinct group keys: pandas `groupby` with the default
`sort=True` visits groups in ascending key order.  The keys are distinct,
and `Value.le` is a total antisymmetric order, so any sort realises the
same pandas ordering; insertion sort is used. -/
def sortValues : List Value → List Value
  | [] => []
  | a :: t => insertLe a (sortValues t)

/-- `df.groupby(c)`: the distinct values of column `c` in ascending order,
each paired with the sub-frame of the rows carrying that value, in their
original row order. -/
def groupby (df : DataFrame) (c : String) : Except String (List (Value × DataFrame)) :=
  match colIndex df.cols c with
  | none => .error ("KeyError: " ++ c)
  | some i =>
      let keys := df.rows.map (fun r => r.getD i (Value.int 0))
      .ok ((sortValues (dedup keys)).map (fun k =>
        (k, { cols := df.cols,
              rows := df.rows.filter (fun r => r.getD i (Value.int 0) == k) })))

/-- The `PolyCollection` handed to matplotlib: vertex rings plus the
parallel per-polygon fill colours.  Further style kwargs are passed
through uninterpreted and are not modelled. -/
structure PolyCollection where
  verts : List (List (Rat × Rat))
  facecolors : List Value
deriving DecidableEq, Repr

/-- The vertex ring built for one record inside the loop of
`chromosome_collections`:
`[(xmin, ymin), (xmin, ymax), (xmin+xwidth, ymax), (xmin+xwidth, ymin), (xmin, ymin)]`. -/
def rectVerts (xmin xwidth ymin ymax : Rat) : List (Rat × Rat) :=
  [(xmin, ymin), (xmin, ymax), (xmin + xwidth, ymax), (xmin + xwidth, ymin), (xmin, ymin)]

/-- `y_positions[chrom]`: the dict lookup anchoring the lane, a
`KeyError` when the chromosome has no entry. -/
def laneLookup (y_positions : List (Value × Rat)) (chrom : Value) : Except String Rat :=
  match List.lookup chrom y_positions with
  | none => .error ("KeyError: " ++ chrom.text)
  | some y => .ok y

/-- The body of the `for chrom, group in df.groupby('chrom')` loop:
`yrange = (y_positions[chrom], height)` (KeyError when the lane is
missing), `xranges = group[['start', 'width']].values`, the vertex
rings, and the `PolyCollection(verts, facecolors=group['colors'])`
yielded for the group.  The `print(chrom)` is log output only and is
not modelled. -/
def processGroup (y_positions : List (Value × Rat)) (height : Rat)
    (chrom : Value) (group : DataFrame) : Except String PolyCollection := do
  let ymin ← laneLookup y_positions chrom
  let starts ← getCol group "start"
  let widths ← getCol group "width"
  let ymax := ymin + height
  let verts := (starts.zip widths).map (fun p =>
    rectVerts p.1.toRat p.2.toRat ymin ymax)
  let colors ← getCol group "colors"
  return { verts := verts, facecolors := colors }

/-- Step 1 of `chromosome_collections` when `'width' not in df.columns`:
`df['width'] = df['end'] - df['start']`. -/
def addWidth (df : DataFrame) : Except String DataFrame := do
  let ends ← getCol df "end"
  let starts ← getCol df "start"
  return setCol df "width" (List.zipWith Value.sub ends starts)

/-- The frame actually grouped and laid out: the input frame itself when
it already has a `width` column, otherwise the input frame with the
derived `width` column appended. -/
def widthAugmented (df : DataFrame) : Except String DataFrame :=
  if df.cols.contains "width" then pure df else addWidth df

/-- `mapM` for `Except`, written out recursively: process the groups in
order, stopping at the first failing one — exactly the behaviour of
running the generator to exhaustion. -/
def mapExcept (f : α → Except ε β) : List α → Except ε (List β)
  | [] => .ok []
  | x :: xs => do
    let y ← f x
    let ys ← mapExcept f xs
    return y :: ys

/-- `chromosome_collections(df, y_positions, height)` run to exhaustion:
the batches it yields in order, paired with the state of the caller's
frame after the generator finishes (the synthesized `width` column, if
any, deleted again).  Any `KeyError` raised along the way aborts the
whole run with no further batches. -/
def chromosome_collections (df : DataFrame) (y_positions : List (Value × Rat))
    (height : Rat) : Except String (List PolyCollection × DataFrame) := do
  let del_width := !(df.cols.contains "width")
  let df1 ← widthAugmented df
  let gs ← groupby df1 "chrom"
  let colls ← mapExcept (fun p => processGroup y_positions height p.1 p.2) gs
  return (colls, if del_width then delCol df1 "width" else df1)

/-! ### Basic lemmas about the frame primitives -/

theorem colIndex_eq_none_iff (cols : List String) (c : String) :
    colIndex cols c = none ↔ c ∉ cols := by
  induction cols with
  | nil => simp [colIndex]
  | cons x t ih =>
    by_cases hx : x = c
    · subst hx; simp [colIndex]
    · simp [colIndex, hx, Option.map_eq_none', ih, Ne.symm hx]

theorem colIndex_lt_length {cols : List String} {c : String} {i : Nat}
    (h : colIndex cols c = some i) : i < cols.length := by
  induction cols generalizing i with
  | nil => simp [colIndex] at h
  | cons x t ih =>
    by_cases hx : x = c
    · subst hx
      simp [colIndex] at h
      simp [← h]
    · simp [colIndex, hx] at h
      obtain ⟨j, hj, rfl⟩ := h
      have := ih hj
      simp only [List.length_cons]
      omega

theorem colIndex_mem {cols : List String} {c : String} {i : Nat}
    (h : colIndex cols c = some i) : c ∈ cols := by
  by_contra hc
  rw [← colIndex_eq_none_iff] at hc
  simp [hc] at h

theorem colIndex_isSome_of_mem {cols : List String} {c : String}
    (h : c ∈ cols) : ∃ i, colIndex cols c = some i := by
  cases hi : colIndex cols c with
  | none => exact absurd ((colIndex_eq_none_iff cols c).mp hi) (by simp [h])
  | some i => exact ⟨i, rfl⟩

theorem colIndex_append_of_some {cols : List String} {c : String} {i : Nat}
    (l : List String) (h : colIndex cols c = some i) :
    colIndex (cols ++ l) c = some i := by
  induction cols generalizing i with
  | nil => simp [colIndex] at h
  | cons x t ih =>
    by_cases hx : x = c
    · subst hx
      simp [colIndex] at h ⊢
      omega
    · simp [colIndex, hx] at h ⊢
      obtain ⟨j, hj, rfl⟩ := h
      exact ⟨j, ih hj, rfl⟩

theorem colIndex_append_of_none {cols : List String} {c : String}
    (l : List String) (h : colIndex cols c = none) :
    colIndex (cols ++ l) c = (colIndex l c).map (· + cols.length) := by
  induction cols with
  | nil => simp [colIndex]
  | cons x t ih =>
    by_cases hx : x = c
    · subst hx; simp [colIndex] at h
    · simp [colIndex, hx] at h ⊢
      rw [ih h]
      cases colIndex l c <;> simp
      omega

theorem colIndex_append_self {cols : List String} {c : String}
    (h : c ∉ cols) : colIndex (cols ++ [c]) c = some cols.length := by
  rw [colIndex_append_of_none [c] ((colIndex_eq_none_iff cols c).mpr h)]
  simp [colIndex]

theorem getCol_ok_iff {df : DataFrame} {c : String} {vs : List Value} :
    getCol df c = .ok vs ↔
      ∃ i, colIndex df.cols c = some i ∧
        vs = df.rows.map (fun r => r.getD i (Value.int 0)) := by
  unfold getCol
  cases h : colIndex df.cols c <;> simp
  exact comm

theorem getCol_length {df : DataFrame} {c : String} {vs : List Value}
    (h : getCol df c = .ok vs) : vs.length = df.rows.length := by
  obtain ⟨i, -, rfl⟩ := getCol_ok_iff.mp h
  simp

theorem getCol_isOk_of_mem {df : DataFrame} {c : String}
    (h : c ∈ df.cols) : ∃ vs, getCol df c = .ok vs := by
  obtain ⟨i, hi⟩ := colIndex_isSome_of_mem h
  exact ⟨_, getCol_ok_iff.mpr ⟨i, hi, rfl⟩⟩

theorem getCol_error_of_not_mem {df : DataFrame} {c : String}
    (h : c ∉ df.cols) : getCol df c = .error ("KeyError: " ++ c) := by
  unfold getCol
  rw [(colIndex_eq_none_iff df.cols c).mpr h]

/-! ### Appending a fresh column and deleting it again -/

theorem setCol_new_cols {df : DataFrame} {c : String} (vals : List Value)
    (h : c ∉ df.cols) : (setCol df c vals).cols = df.cols ++ [c] := by
  unfold setCol
  rw [(colIndex_eq_none_iff df.cols c).mpr h]

theorem setCol_new_rows {df : DataFrame} {c : String} {vals : List Value}
    (h : c ∉ df.cols) :
    (setCol df c vals).rows = (df.rows.zip vals).map (fun p => p.1 ++ [p.2]) := by
  unfold setCol
  rw [(colIndex_eq_none_iff df.cols c).mpr h]

theorem zip_map_self (l : List α) (f : α → β) :
    l.zip (l.map f) = l.map (fun x => (x, f x)) := by
  have := List.zip_map' (id : α → α) f l
  simpa using this

theorem setCol_new_rows_map {df : DataFrame} {c : String} {g : List Value → Value}
    (h : c ∉ df.cols) :
    (setCol df c (df.rows.map g)).rows = df.rows.map (fun r => r ++ [g r]) := by
  rw [setCol_new_rows h, zip_map_self]
  simp

theorem WF_setCol_new {df : DataFrame} {c : String} {g : List Value → Value}
    (hWF : df.WF) (h : c ∉ df.cols) : (setCol df c (df.rows.map g)).WF := by
  intro r hr
  rw [setCol_new_rows_map h] at hr
  rw [setCol_new_cols _ h]
  obtain ⟨r0, hr0, rfl⟩ := List.mem_map.mp hr
  simp [hWF r0 hr0]

theorem getCol_setCol_new_other {df : DataFrame} {c c2 : String} {g : List Value → Value}
    (hWF : df.WF) (h : c ∉ df.cols) (hne : c2 ≠ c) :
    getCol (setCol df c (df.rows.map g)) c2 = getCol df c2 := by
  unfold getCol
  rw [setCol_new_cols _ h, setCol_new_rows_map h]
  cases hi : colIndex df.cols c2 with
  | none =>
    rw [colIndex_append_of_none [c] hi]
    have : colIndex [c] c2 = none := by
      rw [colIndex_eq_none_iff]
      simp [hne]
    rw [this]
    rfl
  | some i =>
    rw [colIndex_append_of_some [c] hi]
    simp only [List.map_map]
    congr 1
    refine List.map_congr_left (fun r hr => ?_)
    simp only [Function.comp_apply]
    exact List.getD_append r [g r] (Value.int 0) i (by rw [hWF r hr]; exact colIndex_lt_length hi)

theorem getCol_setCol_new_self {df : DataFrame} {c : String} {g : List Value → Value}
    (hWF : df.WF) (h : c ∉ df.cols) :
    getCol (setCol df c (df.rows.map g)) c = .ok (df.rows.map g) := by
  unfold getCol
  rw [setCol_new_cols _ h, setCol_new_rows_map h, colIndex_append_self h]
  simp only [List.map_map]
  congr 1
  refine List.map_congr_left (fun r hr => ?_)
  simp only [Function.comp_apply]
  rw [← hWF r hr]
  induction r with
  | nil => rfl
  | cons a t ih => simp [ih]

theorem eraseIdx_append_self (l : List α) (v : α) :
    (l ++ [v]).eraseIdx l.length = l := by
  induction l with
  | nil => rfl
  | cons a t ih => simp [ih]

theorem delCol_setCol_new {df : DataFrame} {c : String} {g : List Value → Value}
    (hWF : df.WF) (h : c ∉ df.cols) :
    delCol (setCol df c (df.rows.map g)) c = df := by
  unfold delCol
  rw [setCol_new_cols _ h, setCol_new_rows_map h, colIndex_append_self h]
  cases df with
  | mk cols rows =>
    simp only [DataFrame.mk.injEq]
    refine ⟨eraseIdx_append_self cols c, ?_⟩
    rw [List.map_map]
    have hid : ∀ r ∈ rows, ((fun l => List.eraseIdx l cols.length) ∘
        fun r => r ++ [g r]) r = id r := by
      intro r hr
      have hlen : r.length = cols.length := hWF r hr
      simp only [Function.comp_apply, id_eq, ← hlen]
      exact eraseIdx_append_self r (g r)
    rw [List.map_congr_left hid, List.map_id]

/-! ### Distinct keys and their sorted order -/

theorem mem_dedupAux {x : Value} (seen l : List Value) :
    x ∈ dedupAux seen l ↔ x ∈ l ∧ x ∉ seen := by
  induction l generalizing seen with
  | nil => simp [dedupAux]
  | cons a t ih =>
    by_cases ha : a ∈ seen
    · simp only [dedupAux, if_pos ha, ih, List.mem_cons]
      constructor
      · rintro ⟨hx, hs⟩
        exact ⟨Or.inr hx, hs⟩
      · rintro ⟨rfl | hx, hs⟩
        · exact absurd ha hs
        · exact ⟨hx, hs⟩
    · simp only [dedupAux, if_neg ha]
      constructor
      · intro hx
        rcases List.mem_cons.mp hx with rfl | hx2
        · exact ⟨List.mem_cons_self x t, ha⟩
        · obtain ⟨hxt, hxs⟩ := (ih (a :: seen)).mp hx2
          exact ⟨List.mem_cons_of_mem a hxt,
            fun hc => hxs (List.mem_cons_of_mem a hc)⟩
      · rintro ⟨hx, hs⟩
        rcases List.mem_cons.mp hx with rfl | hxt
        · exact List.mem_cons_self x _
        · by_cases hxa : x = a
          · subst hxa; exact List.mem_cons_self x _
          · exact List.mem_cons_of_mem a ((ih (a :: seen)).mpr
              ⟨hxt, fun hc => (List.mem_cons.mp hc).elim hxa hs⟩)

theorem mem_dedup {x : Value} (l : List Value) : x ∈ dedup l ↔ x ∈ l := by
  simp [dedup, mem_dedupAux]

theorem nodup_dedupAux (seen l : List Value) : (dedupAux seen l).Nodup := by
  induction l generalizing seen with
  | nil => simp [dedupAux]
  | cons a t ih =>
    by_cases ha : a ∈ seen
    · simpa [dedupAux, if_pos ha] using ih seen
    · simp only [dedupAux, if_neg ha, List.nodup_cons]
      refine ⟨?_, ih (a :: seen)⟩
      intro hmem
      exact ((mem_dedupAux (a :: seen) t).mp hmem).2 (List.mem_cons_self a seen)

theorem nodup_dedup (l : List Value) : (dedup l).Nodup := nodup_dedupAux [] l

theorem insertLe_perm (a : Value) (l : List Value) :
    (insertLe a l).Perm (a :: l) := by
  induction l with
  | nil => rfl
  | cons b t ih =>
    unfold insertLe
    by_cases h : Value.le a b
    · simp [h]
    · simp only [h]
      simp only [Bool.false_eq_true, if_false]
      exact ((ih.cons b).trans (List.Perm.swap a b t))

theorem sortValues_perm (l : List Value) : (sortValues l).Perm l := by
  induction l with
  | nil => rfl
  | cons a t ih =>
    exact (insertLe_perm a (sortValues t)).trans (ih.cons a)

theorem mem_sortValues {x : Value} (l : List Value) :
    x ∈ sortValues l ↔ x ∈ l :=
  (sortValues_perm l).mem_iff

theorem nodup_sortValues {l : List Value} (h : l.Nodup) :
    (sortValues l).Nodup :=
  (sortValues_perm l).nodup_iff.mpr h

theorem length_sortValues (l : List Value) :
    (sortValues l).length = l.length :=
  (sortValues_perm l).length_eq

theorem Value.leTotal (a b : Value) : a.le b = true ∨ b.le a = true := by
  cases a with
  | int m =>
    cases b with
    | int n =>
      simp only [Value.le, decide_eq_true_eq]
      exact Int.le_total m n
    | str s => exact Or.inl rfl
  | str s =>
    cases b with
    | int n => exact Or.inr rfl
    | str u =>
      simp only [Value.le, decide_eq_true_eq]
      exact le_total s u

theorem Value.leTrans {a b c : Value} (h1 : a.le b = true) (h2 : b.le c = true) :
    a.le c = true := by
  cases a with
  | int m =>
    cases c with
    | str s => rfl
    | int k =>
      cases b with
      | int n =>
        simp only [Value.le, decide_eq_true_eq] at h1 h2 ⊢
        exact le_trans h1 h2
      | str s => simp [Value.le] at h2
  | str s =>
    cases c with
    | int k =>
      cases b with
      | int n => simp [Value.le] at h1
      | str u => simp [Value.le] at h2
    | str w =>
      cases b with
      | int n => simp [Value.le] at h1
      | str u =>
        simp only [Value.le, decide_eq_true_eq] at h1 h2 ⊢
        exact le_trans h1 h2

theorem pairwise_insertLe {a : Value} {l : List Value}
    (hl : l.Pairwise (fun x y => Value.le x y = true)) :
    (insertLe a l).Pairwise (fun x y => Value.le x y = true) := by
  induction l with
  | nil => simp [insertLe]
  | cons b t ih =>
    rcases List.pairwise_cons.mp hl with ⟨hb, ht⟩
    unfold insertLe
    by_cases h : Value.le a b
    · simp only [h, if_true]
      refine List.pairwise_cons.mpr ⟨?_, hl⟩
      intro x hx
      rcases List.mem_cons.mp hx with rfl | hx
      · exact h
      · exact Value.leTrans h (hb x hx)
    · simp only [h]
      simp only [Bool.false_eq_true, if_false]
      refine List.pairwise_cons.mpr ⟨?_, ih ht⟩
      intro x hx
      rcases List.mem_cons.mp ((insertLe_perm a t).mem_iff.mp hx) with rfl | hx
      · rcases Value.leTotal x b with hxb | hbx
        · exact absurd hxb h
        · exact hbx
      · exact hb x hx

theorem sortValues_sorted (l : List Value) :
    (sortValues l).Pairwise (fun x y => Value.le x y = true) := by
  induction l with
  | nil => simp [sortValues]
  | cons a t ih => exact pairwise_insertLe ih

/-! ### Lemmas about the batch loop -/

theorem exceptErrorBind (e : ε) (f : α → Except ε β) :
    (Except.error e >>= f) = Except.error e := rfl

theorem exceptOkBind (a : α) (f : α → Except ε β) :
    (Except.ok a >>= f) = f a := rfl

theorem exceptMapErr (f : α → β) (e : ε) :
    (f <$> (Except.error e : Except ε α)) = Except.error e := rfl

theorem exceptMapOk (f : α → β) (a : α) :
    (f <$> (Except.ok a : Except ε α)) = Except.ok (f a) := rfl

theorem mapExcept_forall2 {f : α → Except ε β} {l : List α} {ys : List β}
    (h : mapExcept f l = .ok ys) : List.Forall₂ (fun x y => f x = .ok y) l ys := by
  induction l generalizing ys with
  | nil =>
    simp only [mapExcept] at h
    cases h
    exact List.Forall₂.nil
  | cons x t ih =>
    simp only [mapExcept] at h
    cases hx : f x with
    | error e =>
      rw [hx, exceptErrorBind] at h
      cases h
    | ok y =>
      rw [hx, exceptOkBind] at h
      cases ht : mapExcept f t with
      | error e =>
        rw [ht, exceptErrorBind] at h
        cases h
      | ok ys2 =>
        rw [ht, exceptOkBind] at h
        cases h
        exact List.Forall₂.cons hx (ih ht)

theorem mapExcept_length {f : α → Except ε β} {l : List α} {ys : List β}
    (h : mapExcept f l = .ok ys) : ys.length = l.length :=
  (mapExcept_forall2 h).length_eq.symm

theorem forall2_mem_right {R : α → β → Prop} {l : List α} {ys : List β}
    (h : List.Forall₂ R l ys) : ∀ y ∈ ys, ∃ x ∈ l, R x y := by
  induction h with
  | nil => intro y hy; cases hy
  | cons hfx _ ih =>
    intro y hy
    rcases List.mem_cons.mp hy with rfl | hy2
    · exact ⟨_, List.mem_cons_self _ _, hfx⟩
    · obtain ⟨x, hx, h2⟩ := ih y hy2
      exact ⟨x, List.mem_cons_of_mem _ hx, h2⟩

theorem mapExcept_ok_of_mem {f : α → Except ε β} {l : List α} {ys : List β}
    (h : mapExcept f l = .ok ys) {y : β} (hy : y ∈ ys) :
    ∃ x ∈ l, f x = .ok y :=
  forall2_mem_right (mapExcept_forall2 h) y hy

theorem mapExcept_error_of_mem {f : α → Except ε β} {l : List α} {x : α}
    (hx : x ∈ l) {e : ε} (he : f x = .error e) :
    ∃ e2, mapExcept f l = .error e2 := by
  induction l with
  | nil => cases hx
  | cons a t ih =>
    rcases List.mem_cons.mp hx with rfl | hx2
    · exact ⟨e, by rw [mapExcept, he, exceptErrorBind]⟩
    · cases ha : f a with
      | error e3 => exact ⟨e3, by rw [mapExcept, ha, exceptErrorBind]⟩
      | ok y =>
        obtain ⟨e2, ht⟩ := ih hx2
        refine ⟨e2, ?_⟩
        rw [mapExcept, ha, exceptOkBind, ht, exceptErrorBind]

theorem mapExcept_cons_error {f : α → Except ε β} {x : α} {t : List α} {e : ε}
    (he : f x = .error e) : mapExcept f (x :: t) = .error e := by
  rw [mapExcept, he, exceptErrorBind]

/-! ### Unfolding the groupby and the full run -/

theorem groupby_ok_iff {df : DataFrame} {c : String} {gs : List (Value × DataFrame)} :
    groupby df c = .ok gs ↔
      ∃ i, colIndex df.cols c = some i ∧
        gs = (sortValues (dedup (df.rows.map (fun r => r.getD i (Value.int 0))))).map
          (fun k => (k, DataFrame.mk df.cols
            (df.rows.filter (fun r => r.getD i (Value.int 0) == k)))) := by
  unfold groupby
  cases h : colIndex df.cols c <;> simp
  exact comm

theorem laneLookup_none {ys : List (Value × Rat)} {c : Value}
    (h : List.lookup c ys = none) :
    laneLookup ys c = .error ("KeyError: " ++ c.text) := by
  unfold laneLookup
  rw [h]

theorem laneLookup_some {ys : List (Value × Rat)} {c : Value} {y : Rat}
    (h : List.lookup c ys = some y) : laneLookup ys c = .ok y := by
  unfold laneLookup
  rw [h]

theorem getCol_none {df : DataFrame} {c : String}
    (h : colIndex df.cols c = none) :
    getCol df c = .error ("KeyError: " ++ c) := by
  unfold getCol
  rw [h]

theorem getCol_some {df : DataFrame} {c : String} {i : Nat}
    (h : colIndex df.cols c = some i) :
    getCol df c = .ok (df.rows.map (fun r => r.getD i (Value.int 0))) := by
  unfold getCol
  rw [h]

theorem processGroup_ok_iff {ys : List (Value × Rat)} {h : Rat} {c : Value}
    {g : DataFrame} {pc : PolyCollection} :
    processGroup ys h c g = .ok pc ↔
      ∃ y0 si wi ci,
        List.lookup c ys = some y0 ∧
        colIndex g.cols "start" = some si ∧
        colIndex g.cols "width" = some wi ∧
        colIndex g.cols "colors" = some ci ∧
        pc = PolyCollection.mk
          (g.rows.map (fun r =>
            rectVerts (r.getD si (Value.int 0)).toRat
              (r.getD wi (Value.int 0)).toRat y0 (y0 + h)))
          (g.rows.map (fun r => r.getD ci (Value.int 0))) := by
  unfold processGroup
  cases hy : List.lookup c ys with
  | none =>
    rw [laneLookup_none hy, exceptErrorBind]
    simp
  | some y0 =>
    rw [laneLookup_some hy, exceptOkBind]
    cases hs : colIndex g.cols "start" with
    | none =>
      rw [getCol_none hs, exceptErrorBind]
      simp [hs]
    | some si =>
      rw [getCol_some hs, exceptOkBind]
      cases hw : colIndex g.cols "width" with
      | none =>
        rw [getCol_none hw, exceptErrorBind]
        simp [hw]
      | some wi =>
        rw [getCol_some hw, exceptOkBind]
        cases hc : colIndex g.cols "colors" with
        | none =>
          rw [getCol_none hc, exceptErrorBind]
          simp [hc]
        | some ci =>
          rw [getCol_some hc, exceptOkBind]
          simp only [pure, Except.pure, Except.ok.injEq]
          rw [List.zip_map' (fun r => r.getD si (Value.int 0))
            (fun r => r.getD wi (Value.int 0)) g.rows, List.map_map]
          constructor
          · intro hpc
            exact ⟨y0, si, wi, ci, rfl, rfl, rfl, rfl, hpc.symm⟩
          · rintro ⟨y1, si2, wi2, ci2, h1, h2, h3, h4, rfl⟩
            cases h1
            cases h2
            cases h3
            cases h4
            rfl

theorem chromosome_collections_ok_iff {df : DataFrame} {ys : List (Value × Rat)}
    {h : Rat} {colls : List PolyCollection} {d2 : DataFrame} :
    chromosome_collections df ys h = .ok (colls, d2) ↔
      ∃ df1 gs,
        widthAugmented df = .ok df1 ∧
        groupby df1 "chrom" = .ok gs ∧
        mapExcept (fun p => processGroup ys h p.1 p.2) gs = .ok colls ∧
        d2 = (if df.cols.contains "width" then df1 else delCol df1 "width") := by
  unfold chromosome_collections
  cases h1 : widthAugmented df with
  | error e =>
    rw [exceptErrorBind]
    simp
  | ok df1 =>
    rw [exceptOkBind]
    cases h2 : groupby df1 "chrom" with
    | error e =>
      rw [exceptErrorBind]
      simp [h2]
    | ok gs =>
      rw [exceptOkBind]
      cases h3 : mapExcept (fun p => processGroup ys h p.1 p.2) gs with
      | error e =>
        rw [exceptErrorBind]
        simp [h2, h3]
      | ok colls0 =>
        rw [exceptOkBind]
        have hif : (if (!df.cols.contains "width") = true then delCol df1 "width" else df1)
            = (if df.cols.contains "width" then df1 else delCol df1 "width") := by
          cases df.cols.contains "width" <;> rfl
        rw [hif]
        have hpure : (pure (colls0, if df.cols.contains "width" then df1
              else delCol df1 "width") : Except String (List PolyCollection × DataFrame))
            = Except.ok (colls0, if df.cols.contains "width" then df1
              else delCol df1 "width") := rfl
        rw [hpure]
        constructor
        · intro hp
          injection hp with hp
          cases hp
          exact ⟨df1, gs, rfl, h2, h3, rfl⟩
        · rintro ⟨df1b, gsb, hd, hg, hm, hd2⟩
          injection hd with hd
          subst hd
          rw [h2] at hg
          injection hg with hg
          subst hg
          rw [h3] at hm
          injection hm with hm
          subst hm
          subst hd2
          rfl

theorem addWidth_ok_iff {df df1 : DataFrame} :
    addWidth df = .ok df1 ↔
      ∃ ei si, colIndex df.cols "end" = some ei ∧
        colIndex df.cols "start" = some si ∧
        df1 = setCol df "width" (df.rows.map (fun r =>
          Value.sub (r.getD ei (Value.int 0)) (r.getD si (Value.int 0)))) := by
  unfold addWidth
  cases he : colIndex df.cols "end" with
  | none =>
    rw [getCol_none he, exceptErrorBind]
    simp
  | some ei =>
    rw [getCol_some he, exceptOkBind]
    cases hs : colIndex df.cols "start" with
    | none =>
      rw [getCol_none hs, exceptErrorBind]
      simp [hs]
    | some si =>
      rw [getCol_some hs, exceptOkBind]
      have hz : List.zipWith Value.sub
          (df.rows.map (fun r => r.getD ei (Value.int 0)))
          (df.rows.map (fun r => r.getD si (Value.int 0)))
          = df.rows.map (fun r =>
              Value.sub (r.getD ei (Value.int 0)) (r.getD si (Value.int 0))) := by
        rw [List.zipWith_map, List.zipWith_same]
      have hpure : (pure (setCol df "width" (List.zipWith Value.sub
            (df.rows.map (fun r => r.getD ei (Value.int 0)))
            (df.rows.map (fun r => r.getD si (Value.int 0))))) : Except String DataFrame)
          = Except.ok (setCol df "width" (List.zipWith Value.sub
            (df.rows.map (fun r => r.getD ei (Value.int 0)))
            (df.rows.map (fun r => r.getD si (Value.int 0))))) := rfl
      rw [hpure, hz]
      constructor
      · intro hd
        injection hd with hd
        exact ⟨ei, si, rfl, rfl, hd.symm⟩
      · rintro ⟨ei2, si2, h1, h2, rfl⟩
        cases h1
        cases h2
        rfl

theorem widthAugmented_of_contains {df : DataFrame}
    (h : df.cols.contains "width") : widthAugmented df = .ok df := by
  unfold widthAugmented
  rw [if_pos h]
  rfl

theorem widthAugmented_of_not_contains {df : DataFrame}
    (h : ¬ df.cols.contains "width") : widthAugmented df = addWidth df := by
  unfold widthAugmented
  rw [if_neg h]

/-- Every useful fact about one batch of the run, extracted from the
success of the whole call: the batch belongs to some grouped category
`c` with lane base `y0`, and its vertex rings and colours are built
record by record, in order, from the rows of the width-augmented frame
carrying key `c`. -/
theorem batch_spec {df : DataFrame} {ys : List (Value × Rat)} {h : Rat}
    {colls : List PolyCollection} {d2 : DataFrame} {pc : PolyCollection}
    (hok : chromosome_collections df ys h = .ok (colls, d2)) (hpc : pc ∈ colls) :
    ∃ df1 ki c si wi ci y0,
      widthAugmented df = .ok df1 ∧
      colIndex df1.cols "chrom" = some ki ∧
      colIndex df1.cols "start" = some si ∧
      colIndex df1.cols "width" = some wi ∧
      colIndex df1.cols "colors" = some ci ∧
      List.lookup c ys = some y0 ∧
      c ∈ sortValues (dedup (df1.rows.map (fun r => r.getD ki (Value.int 0)))) ∧
      pc = PolyCollection.mk
        ((df1.rows.filter (fun r => r.getD ki (Value.int 0) == c)).map (fun r =>
          rectVerts (r.getD si (Value.int 0)).toRat
            (r.getD wi (Value.int 0)).toRat y0 (y0 + h)))
        ((df1.rows.filter (fun r => r.getD ki (Value.int 0) == c)).map
          (fun r => r.getD ci (Value.int 0))) := by
  obtain ⟨df1, gs, h1, h2, h3, -⟩ := chromosome_collections_ok_iff.mp hok
  obtain ⟨ki, hki, rfl⟩ := groupby_ok_iff.mp h2
  obtain ⟨p, hp, hpok⟩ := mapExcept_ok_of_mem h3 hpc
  obtain ⟨k, hk, rfl⟩ := List.mem_map.mp hp
  obtain ⟨y0, si, wi, ci, hy, hsi, hwi, hci, rfl⟩ := processGroup_ok_iff.mp hpok
  exact ⟨df1, ki, k, si, wi, ci, y0, h1, hki, hsi, hwi, hci, hy, hk, rfl⟩

/-- The derived `BEq` on cells is decidable equality. -/
theorem beq_value (a b : Value) : (a == b) = decide (a = b) := rfl

/-! ### Concrete inputs used to witness the theorems

`exdf` is the two-record table of the spec's worked example: `chr1`
spanning 100–500 and `chr2` spanning 0–300, with no `width` column, and
`exys` the lane-offset map `{chr1 ↦ 0, chr2 ↦ 2}`. -/

def exdf : DataFrame :=
  DataFrame.mk ["chrom", "start", "end", "colors"]
    [[Value.str "chr1", Value.int 100, Value.int 500, Value.str "red"],
     [Value.str "chr2", Value.int 0, Value.int 300, Value.str "blue"]]

def exys : List (Value × Rat) := [(Value.str "chr1", 0), (Value.str "chr2", 2)]

/-- The batch the run on `exdf` yields for `chr1`: one rectangle
x ∈ [100, 500], y ∈ [0, 1]. -/
def expc1 : PolyCollection :=
  PolyCollection.mk
    [[(100, 0), (100, 0 + 1), (100 + 400, 0 + 1), (100 + 400, 0), (100, 0)]]
    [Value.str "red"]

/-- The batch the run on `exdf` yields for `chr2`: one rectangle
x ∈ [0, 300], y ∈ [2, 3]. -/
def expc2 : PolyCollection :=
  PolyCollection.mk
    [[(0, 2), (0, 2 + 1), (0 + 300, 2 + 1), (0 + 300, 2), (0, 2)]]
    [Value.str "blue"]

/-! ### The claims -/

/-- C1: every batch a successful run of the layout engine emits is the
batch of one category `c`: its source records `rs` are exactly the rows
of the laid-out frame whose `chrom` cell equals `c` (and every record
of the batch carries that very category), `c` is mapped by the
lane-offset dict to `y0`, and the batch's polygons are built from those
records, one per record in order, each a rectangle whose lower
horizontal edge (vertices 1, 4, 5) lies at `y = y0 = lane_offset[c]`
and whose upper horizontal edge (vertices 2, 3) lies at
`y = y0 + height`. -/
theorem claim_lane_placement (df : DataFrame) (ys : List (Value × Rat)) (h : Rat)
    (colls : List PolyCollection) (d2 : DataFrame) (pc : PolyCollection)
    (hok : chromosome_collections df ys h = .ok (colls, d2)) (hpc : pc ∈ colls) :
    ∃ df1 ki c y0 rs si wi,
      widthAugmented df = .ok df1 ∧
      colIndex df1.cols "chrom" = some ki ∧
      colIndex df1.cols "start" = some si ∧
      colIndex df1.cols "width" = some wi ∧
      rs = df1.rows.filter (fun r => r.getD ki (Value.int 0) == c) ∧
      (∀ r ∈ rs, r.getD ki (Value.int 0) = c) ∧
      List.lookup c ys = some y0 ∧
      pc.verts = rs.map (fun r => rectVerts (r.getD si (Value.int 0)).toRat
        (r.getD wi (Value.int 0)).toRat y0 (y0 + h)) ∧
      (∀ poly ∈ pc.verts, ∃ x w,
        poly = [(x, y0), (x, y0 + h), (x + w, y0 + h), (x + w, y0), (x, y0)]) := by
  obtain ⟨df1, ki, c, si, wi, ci, y0, h1, hki, hsi, hwi, hci, hy, hcm, rfl⟩ :=
    batch_spec hok hpc
  refine ⟨df1, ki, c, y0, _, si, wi, h1, hki, hsi, hwi, rfl, ?_, hy, rfl, ?_⟩
  · intro r hr
    have hkey := (List.mem_filter.mp hr).2
    rw [beq_value] at hkey
    exact of_decide_eq_true hkey
  · intro poly hpoly
    obtain ⟨r, -, rfl⟩ := List.mem_map.mp hpoly
    exact ⟨_, _, rfl⟩

theorem claim_lane_placement_witness :
    ∃ df1 ki c y0 rs si wi,
      widthAugmented exdf = .ok df1 ∧
      colIndex df1.cols "chrom" = some ki ∧
      colIndex df1.cols "start" = some si ∧
      colIndex df1.cols "width" = some wi ∧
      rs = df1.rows.filter (fun r => r.getD ki (Value.int 0) == c) ∧
      (∀ r ∈ rs, r.getD ki (Value.int 0) = c) ∧
      List.lookup c exys = some y0 ∧
      expc1.verts = rs.map (fun r => rectVerts (r.getD si (Value.int 0)).toRat
        (r.getD wi (Value.int 0)).toRat y0 (y0 + 1)) ∧
      (∀ poly ∈ expc1.verts, ∃ x w,
        poly = [(x, y0), (x, y0 + 1), (x + w, y0 + 1), (x + w, y0), (x, y0)]) :=
  claim_lane_placement exdf exys 1 [expc1, expc2] exdf expc1
    (by simp [chromosome_collections, widthAugmented, addWidth, setCol, getCol,
      colIndex, groupby, dedup, dedupAux, sortValues, insertLe, processGroup,
      laneLookup, mapExcept, delCol, rectVerts, Value.toRat, Value.sub, Value.le,
      exdf, exys, expc1, expc2, List.lookup,
      exceptOkBind, exceptErrorBind, exceptMapOk, exceptMapErr, beq_value])
    (List.mem_cons_self _ _)

/-- C2: every polygon a successful run emits has exactly 5 vertices,
its first and last vertices coincide (a closed ring), and, reading the
source record's `start` cell as `s` and `width` cell as `w`, its
vertices are, in order,
`(s, y0), (s, y0+height), (s+w, y0+height), (s+w, y0), (s, y0)`. -/
theorem claim_polygon_ring (df : DataFrame) (ys : List (Value × Rat)) (h : Rat)
    (colls : List PolyCollection) (d2 : DataFrame) (pc : PolyCollection)
    (hok : chromosome_collections df ys h = .ok (colls, d2)) (hpc : pc ∈ colls) :
    ∀ poly ∈ pc.verts,
      poly.length = 5 ∧
      poly.head? = poly.getLast? ∧
      ∃ df1 r si wi y0,
        widthAugmented df = .ok df1 ∧ r ∈ df1.rows ∧
        colIndex df1.cols "start" = some si ∧
        colIndex df1.cols "width" = some wi ∧
        poly = [((r.getD si (Value.int 0)).toRat, y0),
                ((r.getD si (Value.int 0)).toRat, y0 + h),
                ((r.getD si (Value.int 0)).toRat + (r.getD wi (Value.int 0)).toRat, y0 + h),
                ((r.getD si (Value.int 0)).toRat + (r.getD wi (Value.int 0)).toRat, y0),
                ((r.getD si (Value.int 0)).toRat, y0)] := by
  intro poly hpoly
  obtain ⟨df1, ki, c, si, wi, ci, y0, h1, hki, hsi, hwi, hci, hy, hc2, rfl⟩ :=
    batch_spec hok hpc
  obtain ⟨r, hr, rfl⟩ := List.mem_map.mp hpoly
  exact ⟨rfl, rfl, df1, r, si, wi, y0, h1, (List.mem_filter.mp hr).1, hsi, hwi, rfl⟩

/-- The single vertex ring of the `chr2` batch on `exdf`. -/
def expoly2 : List (Rat × Rat) :=
  [(0, 2), (0, 2 + 1), (0 + 300, 2 + 1), (0 + 300, 2), (0, 2)]

theorem claim_polygon_ring_witness :
    expoly2.length = 5 ∧
    expoly2.head? = expoly2.getLast? ∧
    ∃ df1 r si wi y0,
      widthAugmented exdf = .ok df1 ∧ r ∈ df1.rows ∧
      colIndex df1.cols "start" = some si ∧
      colIndex df1.cols "width" = some wi ∧
      expoly2 = [((r.getD si (Value.int 0)).toRat, y0),
              ((r.getD si (Value.int 0)).toRat, y0 + 1),
              ((r.getD si (Value.int 0)).toRat + (r.getD wi (Value.int 0)).toRat, y0 + 1),
              ((r.getD si (Value.int 0)).toRat + (r.getD wi (Value.int 0)).toRat, y0),
              ((r.getD si (Value.int 0)).toRat, y0)] :=
  claim_polygon_ring exdf exys 1 [expc1, expc2] exdf expc2
    (by simp [chromosome_collections, widthAugmented, addWidth, setCol, getCol,
      colIndex, groupby, dedup, dedupAux, sortValues, insertLe, processGroup,
      laneLookup, mapExcept, delCol, rectVerts, Value.toRat, Value.sub, Value.le,
      exdf, exys, expc1, expc2, List.lookup,
      exceptOkBind, exceptErrorBind, exceptMapOk, exceptMapErr, beq_value])
    (by simp)
    expoly2 (by simp [expc2, expoly2])

/-- C7: within every batch a successful run emits, the polygons are in
bijection, index by index and in order, with the rows of the laid-out
frame whose key equals the batch's category — an order-preserving
selection (sublist) of the input rows — and the batch's fill-colour
list is parallel to the polygon list, both being maps over that same
row list. -/
theorem claim_batch_order_parallel (df : DataFrame) (ys : List (Value × Rat)) (h : Rat)
    (colls : List PolyCollection) (d2 : DataFrame) (pc : PolyCollection)
    (hok : chromosome_collections df ys h = .ok (colls, d2)) (hpc : pc ∈ colls) :
    ∃ df1 ki c si wi ci y0 rs,
      widthAugmented df = .ok df1 ∧
      colIndex df1.cols "chrom" = some ki ∧
      colIndex df1.cols "start" = some si ∧
      colIndex df1.cols "width" = some wi ∧
      colIndex df1.cols "colors" = some ci ∧
      List.lookup c ys = some y0 ∧
      rs = df1.rows.filter (fun r => r.getD ki (Value.int 0) == c) ∧
      rs.Sublist df1.rows ∧
      pc.verts = rs.map (fun r => rectVerts (r.getD si (Value.int 0)).toRat
        (r.getD wi (Value.int 0)).toRat y0 (y0 + h)) ∧
      pc.facecolors = rs.map (fun r => r.getD ci (Value.int 0)) := by
  obtain ⟨df1, ki, c, si, wi, ci, y0, h1, hki, hsi, hwi, hci, hy, hc2, rfl⟩ :=
    batch_spec hok hpc
  exact ⟨df1, ki, c, si, wi, ci, y0, _, h1, hki, hsi, hwi, hci, hy, rfl,
    List.filter_sublist _, rfl, rfl⟩

theorem claim_batch_order_parallel_witness :
    ∃ df1 ki c si wi ci y0 rs,
      widthAugmented exdf = .ok df1 ∧
      colIndex df1.cols "chrom" = some ki ∧
      colIndex df1.cols "start" = some si ∧
      colIndex df1.cols "width" = some wi ∧
      colIndex df1.cols "colors" = some ci ∧
      List.lookup c exys = some y0 ∧
      rs = df1.rows.filter (fun r => r.getD ki (Value.int 0) == c) ∧
      rs.Sublist df1.rows ∧
      expc1.verts = rs.map (fun r => rectVerts (r.getD si (Value.int 0)).toRat
        (r.getD wi (Value.int 0)).toRat y0 (y0 + 1)) ∧
      expc1.facecolors = rs.map (fun r => r.getD ci (Value.int 0)) :=
  claim_batch_order_parallel exdf exys 1 [expc1, expc2] exdf expc1
    (by simp [chromosome_collections, widthAugmented, addWidth, setCol, getCol,
      colIndex, groupby, dedup, dedupAux, sortValues, insertLe, processGroup,
      laneLookup, mapExcept, delCol, rectVerts, Value.toRat, Value.sub, Value.le,
      exdf, exys, expc1, expc2, List.lookup,
      exceptOkBind, exceptErrorBind, exceptMapOk, exceptMapErr, beq_value])
    (List.mem_cons_self _ _)

/-! ### How the width augmentation affects columns -/

theorem widthAugmented_cols_or {df df1 : DataFrame}
    (hok : widthAugmented df = .ok df1) :
    df1.cols = df.cols ∨ df1.cols = df.cols ++ ["width"] := by
  by_cases hc : df.cols.contains "width"
  · rw [widthAugmented_of_contains hc] at hok
    injection hok with hok
    subst hok
    exact Or.inl rfl
  · rw [widthAugmented_of_not_contains hc] at hok
    obtain ⟨ei, si, -, -, rfl⟩ := addWidth_ok_iff.mp hok
    have hw : "width" ∉ df.cols := by simpa using hc
    exact Or.inr (setCol_new_cols _ hw)

theorem widthAugmented_width_mem {df df1 : DataFrame}
    (hok : widthAugmented df = .ok df1) : "width" ∈ df1.cols := by
  by_cases hc : df.cols.contains "width"
  · rcases widthAugmented_cols_or hok with h | h <;> rw [h]
    · simpa using hc
    · simp
  · rw [widthAugmented_of_not_contains hc] at hok
    obtain ⟨ei, si, -, -, rfl⟩ := addWidth_ok_iff.mp hok
    have hw : "width" ∉ df.cols := by simpa using hc
    rw [setCol_new_cols _ hw]
    simp

theorem widthAugmented_mem_cols {df df1 : DataFrame}
    (hok : widthAugmented df = .ok df1) {c : String} (hc : c ∈ df.cols) :
    c ∈ df1.cols := by
  rcases widthAugmented_cols_or hok with h | h <;> rw [h]
  · exact hc
  · exact List.mem_append_left _ hc

theorem widthAugmented_not_mem_cols {df df1 : DataFrame}
    (hok : widthAugmented df = .ok df1) {c : String} (hc : c ∉ df.cols)
    (hcw : c ≠ "width") : c ∉ df1.cols := by
  rcases widthAugmented_cols_or hok with h | h <;> rw [h]
  · exact hc
  · simp [hc, hcw]

theorem getCol_widthAugmented {df df1 : DataFrame} {c : String}
    (hWF : df.WF) (hok : widthAugmented df = .ok df1) (hne : c ≠ "width") :
    getCol df1 c = getCol df c := by
  by_cases hc : df.cols.contains "width"
  · rw [widthAugmented_of_contains hc] at hok
    injection hok with hok
    subst hok
    rfl
  · rw [widthAugmented_of_not_contains hc] at hok
    obtain ⟨ei, si, -, -, rfl⟩ := addWidth_ok_iff.mp hok
    have hw : "width" ∉ df.cols := by simpa using hc
    exact getCol_setCol_new_other hWF hw hne

/-- A category with a row in the data but no entry in the lane-offset map
makes the whole run fail with a `KeyError` (shared spine of the two
error-handling claims about missing lanes). -/
theorem missing_lane_aborts {df : DataFrame} {ys : List (Value × Rat)} {h : Rat}
    {ks : List Value} {c : Value}
    (hWF : df.WF) (hks : getCol df "chrom" = .ok ks) (hc : c ∈ ks)
    (hmiss : List.lookup c ys = none) :
    ∃ e, chromosome_collections df ys h = .error e := by
  cases hwa : widthAugmented df with
  | error e =>
    refine ⟨e, ?_⟩
    unfold chromosome_collections
    rw [hwa, exceptErrorBind]
  | ok df1 =>
    have hks1 : getCol df1 "chrom" = .ok ks := by
      rw [getCol_widthAugmented hWF hwa (by decide)]
      exact hks
    obtain ⟨ki, hki, hkeys⟩ := getCol_ok_iff.mp hks1
    have hgb : groupby df1 "chrom" = .ok
        ((sortValues (dedup (df1.rows.map (fun r => r.getD ki (Value.int 0))))).map
          (fun k => (k, DataFrame.mk df1.cols
            (df1.rows.filter (fun r => r.getD ki (Value.int 0) == k))))) :=
      groupby_ok_iff.mpr ⟨ki, hki, rfl⟩
    have hcuniq : c ∈ sortValues (dedup (df1.rows.map (fun r => r.getD ki (Value.int 0)))) := by
      rw [mem_sortValues, mem_dedup]
      rw [hkeys] at hc
      exact hc
    have hmem : (c, DataFrame.mk df1.cols
        (df1.rows.filter (fun r => r.getD ki (Value.int 0) == c))) ∈
        ((sortValues (dedup (df1.rows.map (fun r => r.getD ki (Value.int 0))))).map
          (fun k => (k, DataFrame.mk df1.cols
            (df1.rows.filter (fun r => r.getD ki (Value.int 0) == k))))) :=
      List.mem_map_of_mem _ hcuniq
    have hpg : processGroup ys h c (DataFrame.mk df1.cols
        (df1.rows.filter (fun r => r.getD ki (Value.int 0) == c)))
        = .error ("KeyError: " ++ c.text) := by
      unfold processGroup
      rw [laneLookup_none hmiss, exceptErrorBind]
    obtain ⟨e2, hme⟩ := mapExcept_error_of_mem
      (f := fun p => processGroup ys h p.1 p.2) hmem hpg
    refine ⟨e2, ?_⟩
    unfold chromosome_collections
    rw [hwa, exceptOkBind, hgb, exceptOkBind, hme, exceptErrorBind]

/-- Input with a category (`chrZ`) that the lane-offset map
`{chr1 ↦ 0}` does not know. -/
def ex5df : DataFrame :=
  DataFrame.mk ["chrom", "start", "end", "colors"]
    [[Value.str "chr1", Value.int 100, Value.int 500, Value.str "red"],
     [Value.str "chrZ", Value.int 0, Value.int 300, Value.str "blue"]]

def ex5ys : List (Value × Rat) := [(Value.str "chr1", 0)]

/-- C4: an input category with no entry in the lane-offset mapping makes
the run raise a `KeyError` (the whole generator aborts); the record is
not silently skipped. -/
theorem claim_missing_lane_error (df : DataFrame) (ys : List (Value × Rat)) (h : Rat)
    (ks : List Value) (c : Value)
    (hWF : df.WF) (hks : getCol df "chrom" = .ok ks) (hc : c ∈ ks)
    (hmiss : List.lookup c ys = none) :
    ∃ e, chromosome_collections df ys h = .error e :=
  missing_lane_aborts hWF hks hc hmiss

theorem claim_missing_lane_error_witness :
    ∃ e, chromosome_collections ex5df ex5ys 1 = .error e :=
  claim_missing_lane_error ex5df ex5ys 1
    [Value.str "chr1", Value.str "chrZ"] (Value.str "chrZ")
    (by simp [DataFrame.WF, ex5df]) (by rfl) (by decide) (by rfl)

/-- C5 counterexample: the claim predicts that the `chrZ` record is
silently dropped and the rest laid out without error; in fact the run
raises `KeyError: chrZ` and produces no output at all. -/
theorem claim_silent_exclusion_counterexample :
    chromosome_collections ex5df ex5ys 1 = .error ("KeyError: " ++ "chrZ") ∧
    ∀ out, chromosome_collections ex5df ex5ys 1 ≠ .ok out := by
  have he : chromosome_collections ex5df ex5ys 1 = .error ("KeyError: " ++ "chrZ") := by
    simp [chromosome_collections, widthAugmented, addWidth, setCol, getCol,
      colIndex, groupby, dedup, dedupAux, sortValues, insertLe, processGroup,
      laneLookup, mapExcept, delCol, rectVerts, Value.toRat, Value.sub, Value.le,
      Value.text, ex5df, ex5ys, List.lookup,
      exceptOkBind, exceptErrorBind, exceptMapOk, exceptMapErr, beq_value]
  refine ⟨he, fun out hout => ?_⟩
  rw [he] at hout
  exact Except.noConfusion hout

/-- C5 amended: an interval whose category is absent from the
lane-offset mapping is NOT silently excluded — the engine aborts the
whole run with a missing-key error, laying out nothing. -/
theorem claim_unmapped_category_aborts (df : DataFrame) (ys : List (Value × Rat)) (h : Rat)
    (ks : List Value) (c : Value)
    (hWF : df.WF) (hks : getCol df "chrom" = .ok ks) (hc : c ∈ ks)
    (hmiss : List.lookup c ys = none) :
    ∀ out, chromosome_collections df ys h ≠ .ok out := by
  obtain ⟨e, he⟩ := missing_lane_aborts hWF hks hc hmiss
  intro out hout
  rw [he] at hout
  exact Except.noConfusion hout

theorem claim_unmapped_category_aborts_witness :
    chromosome_collections ex5df ex5ys 1 ≠ .ok ([], ex5df) :=
  claim_unmapped_category_aborts ex5df ex5ys 1
    [Value.str "chr1", Value.str "chrZ"] (Value.str "chrZ")
    (by simp [DataFrame.WF, ex5df]) (by rfl) (by decide) (by rfl)
    ([], ex5df)

/-- Input that follows the docstring of `chromosome_collections` to the
letter: per-record colours under the column name `color` (not `colors`),
all categories mapped. -/
def ex10df : DataFrame :=
  DataFrame.mk ["chrom", "start", "end", "color"]
    [[Value.str "chr1", Value.int 100, Value.int 500, Value.str "red"]]

def ex10ys : List (Value × Rat) := [(Value.str "chr1", 0)]

/-- C10: the engine reads fill colours from the column named `colors`;
on any non-empty input without a `colors` column (for instance one that
supplies colours only under `color`, the name the docstring asks for),
producing the first batch fails with `KeyError: colors` and no batch is
yielded. -/
theorem claim_colors_column_lookup (df : DataFrame) (ys : List (Value × Rat)) (h : Rat)
    (ks : List Value)
    (hWF : df.WF)
    (hstart : "start" ∈ df.cols) (hend : "end" ∈ df.cols)
    (hnocolors : "colors" ∉ df.cols)
    (hks : getCol df "chrom" = .ok ks) (hne : ks ≠ [])
    (hlanes : ∀ k ∈ ks, (List.lookup k ys).isSome) :
    chromosome_collections df ys h = .error ("KeyError: " ++ "colors") := by
  have hwa0 : ∃ df1, widthAugmented df = .ok df1 := by
    by_cases hcw : df.cols.contains "width"
    · exact ⟨df, widthAugmented_of_contains hcw⟩
    · rw [widthAugmented_of_not_contains hcw]
      obtain ⟨ei, hei⟩ := colIndex_isSome_of_mem hend
      obtain ⟨si, hsi⟩ := colIndex_isSome_of_mem hstart
      exact ⟨_, addWidth_ok_iff.mpr ⟨ei, si, hei, hsi, rfl⟩⟩
  obtain ⟨df1, hwa⟩ := hwa0
  have hks1 : getCol df1 "chrom" = .ok ks := by
    rw [getCol_widthAugmented hWF hwa (by decide)]
    exact hks
  obtain ⟨ki, hki, hkeys⟩ := getCol_ok_iff.mp hks1
  have hgb : groupby df1 "chrom" = .ok
      ((sortValues (dedup (df1.rows.map (fun r => r.getD ki (Value.int 0))))).map
        (fun k => (k, DataFrame.mk df1.cols
          (df1.rows.filter (fun r => r.getD ki (Value.int 0) == k))))) :=
    groupby_ok_iff.mpr ⟨ki, hki, rfl⟩
  have hunempty : sortValues (dedup (df1.rows.map (fun r => r.getD ki (Value.int 0)))) ≠ [] := by
    obtain ⟨k0, hk0⟩ := List.exists_mem_of_ne_nil ks hne
    intro hnil
    have hk0u : k0 ∈ sortValues (dedup (df1.rows.map (fun r => r.getD ki (Value.int 0)))) := by
      rw [mem_sortValues, mem_dedup]
      rw [hkeys] at hk0
      exact hk0
    rw [hnil] at hk0u
    cases hk0u
  obtain ⟨u, us, huu⟩ :=
    List.exists_cons_of_ne_nil hunempty
  have hu_mem : u ∈ ks := by
    have hu1 : u ∈ sortValues (dedup (df1.rows.map (fun r => r.getD ki (Value.int 0)))) := by
      rw [huu]
      exact List.mem_cons_self _ _
    rw [mem_sortValues, mem_dedup] at hu1
    rw [hkeys]
    exact hu1
  obtain ⟨y0, hy0⟩ := Option.isSome_iff_exists.mp (hlanes u hu_mem)
  obtain ⟨si, hsi⟩ := colIndex_isSome_of_mem (widthAugmented_mem_cols hwa hstart)
  obtain ⟨wi, hwi⟩ := colIndex_isSome_of_mem (widthAugmented_width_mem hwa)
  have hciNone : colIndex df1.cols "colors" = none :=
    (colIndex_eq_none_iff _ _).mpr
      (widthAugmented_not_mem_cols hwa hnocolors (by decide))
  have hpg : processGroup ys h u (DataFrame.mk df1.cols
      (df1.rows.filter (fun r => r.getD ki (Value.int 0) == u)))
      = .error ("KeyError: " ++ "colors") := by
    unfold processGroup
    rw [laneLookup_some hy0, exceptOkBind,
      getCol_some (show colIndex (DataFrame.mk df1.cols
        (df1.rows.filter (fun r => r.getD ki (Value.int 0) == u))).cols "start"
          = some si from hsi), exceptOkBind,
      getCol_some (show colIndex (DataFrame.mk df1.cols
        (df1.rows.filter (fun r => r.getD ki (Value.int 0) == u))).cols "width"
          = some wi from hwi), exceptOkBind,
      getCol_none (show colIndex (DataFrame.mk df1.cols
        (df1.rows.filter (fun r => r.getD ki (Value.int 0) == u))).cols "colors"
          = none from hciNone), exceptErrorBind]
  have hlist : (sortValues (dedup (df1.rows.map (fun r => r.getD ki (Value.int 0))))).map
      (fun k => (k, DataFrame.mk df1.cols
        (df1.rows.filter (fun r => r.getD ki (Value.int 0) == k))))
      = (u, DataFrame.mk df1.cols
          (df1.rows.filter (fun r => r.getD ki (Value.int 0) == u))) ::
        us.map (fun k => (k, DataFrame.mk df1.cols
          (df1.rows.filter (fun r => r.getD ki (Value.int 0) == k)))) := by
    rw [huu, List.map_cons]
  have hmap : mapExcept (fun p => processGroup ys h p.1 p.2)
      ((sortValues (dedup (df1.rows.map (fun r => r.getD ki (Value.int 0))))).map
        (fun k => (k, DataFrame.mk df1.cols
          (df1.rows.filter (fun r => r.getD ki (Value.int 0) == k)))))
      = .error ("KeyError: " ++ "colors") := by
    rw [hlist]
    exact mapExcept_cons_error
      (f := fun p : Value × DataFrame => processGroup ys h p.1 p.2) hpg
  unfold chromosome_collections
  rw [hwa, exceptOkBind, hgb, exceptOkBind, hmap, exceptErrorBind]

theorem claim_colors_column_lookup_witness :
    chromosome_collections ex10df ex10ys 1 = .error ("KeyError: " ++ "colors") :=
  claim_colors_column_lookup ex10df ex10ys 1 [Value.str "chr1"]
    (by simp [DataFrame.WF, ex10df]) (by decide) (by decide) (by decide)
    (by rfl) (by decide) (by decide)

/-- C9: a successful run has no lasting effect on the caller's frame:
during layout the grouped frame has a `width` column (synthesized when
absent on entry), and the frame handed back when the generator finishes
is exactly the frame that was passed in — the synthesized column has
been deleted again, and a frame that already had `width` is untouched. -/
theorem claim_no_lasting_mutation (df : DataFrame) (ys : List (Value × Rat)) (h : Rat)
    (colls : List PolyCollection) (d2 : DataFrame)
    (hWF : df.WF)
    (hok : chromosome_collections df ys h = .ok (colls, d2)) :
    ∃ df1, widthAugmented df = .ok df1 ∧ "width" ∈ df1.cols ∧ d2 = df := by
  obtain ⟨df1, gs, h1, -, -, hd2⟩ := chromosome_collections_ok_iff.mp hok
  refine ⟨df1, h1, widthAugmented_width_mem h1, ?_⟩
  by_cases hwc : df.cols.contains "width"
  · rw [hd2, if_pos hwc]
    rw [widthAugmented_of_contains hwc] at h1
    injection h1 with h1
    exact h1.symm
  · rw [hd2, if_neg hwc]
    rw [widthAugmented_of_not_contains hwc] at h1
    obtain ⟨ei, si, -, -, rfl⟩ := addWidth_ok_iff.mp h1
    have hw : "width" ∉ df.cols := by simpa using hwc
    exact delCol_setCol_new hWF hw

theorem claim_no_lasting_mutation_witness :
    ∃ df1, widthAugmented exdf = .ok df1 ∧ "width" ∈ df1.cols ∧ exdf = exdf :=
  claim_no_lasting_mutation exdf exys 1 [expc1, expc2] exdf
    (by simp [DataFrame.WF, exdf])
    (by simp [chromosome_collections, widthAugmented, addWidth, setCol, getCol,
      colIndex, groupby, dedup, dedupAux, sortValues, insertLe, processGroup,
      laneLookup, mapExcept, delCol, rectVerts, Value.toRat, Value.sub, Value.le,
      exdf, exys, expc1, expc2, List.lookup,
      exceptOkBind, exceptErrorBind, exceptMapOk, exceptMapErr, beq_value])

/-! ### Counting batches and polygons -/

theorem widthAugmented_rows_length {df df1 : DataFrame}
    (hok : widthAugmented df = .ok df1) : df1.rows.length = df.rows.length := by
  by_cases hc : df.cols.contains "width"
  · rw [widthAugmented_of_contains hc] at hok
    injection hok with hok
    subst hok
    rfl
  · rw [widthAugmented_of_not_contains hc] at hok
    obtain ⟨ei, si, -, -, rfl⟩ := addWidth_ok_iff.mp hok
    have hw : "width" ∉ df.cols := by simpa using hc
    rw [setCol_new_rows_map hw]
    simp

theorem forall2_map_eq {R : α → β → Prop} {l : List α} {ys : List β}
    (h : List.Forall₂ R l ys) (f : α → Nat) (g : β → Nat)
    (hfg : ∀ a b, R a b → g b = f a) : ys.map g = l.map f := by
  induction h with
  | nil => rfl
  | cons hab htail ih => simp [ih, hfg _ _ hab]

theorem sum_ite_count (us : List Value) (a : Value) :
    (us.map (fun u => if a = u then 1 else 0)).sum = us.count a := by
  induction us with
  | nil => simp
  | cons b t ih =>
    by_cases hab : a = b
    · subst hab
      simp [List.count_cons, ih]
      omega
    · simp [List.count_cons, hab, ih, Ne.symm hab, beq_value]

theorem sum_filter_lengths (rows : List (List Value)) (us : List Value)
    (key : List Value → Value) (hnd : us.Nodup)
    (hall : ∀ r ∈ rows, key r ∈ us) :
    (us.map (fun u => (rows.filter (fun r => key r == u)).length)).sum
      = rows.length := by
  induction rows with
  | nil => simp
  | cons r t ih =>
    have hall2 : ∀ x ∈ t, key x ∈ us := fun x hx => hall x (List.mem_cons_of_mem r hx)
    have hsplit : ∀ u : Value, ((r :: t).filter (fun x => key x == u)).length
        = (if key r = u then 1 else 0) + (t.filter (fun x => key x == u)).length := by
      intro u
      by_cases hru : key r = u
      · simp [List.filter_cons, hru, beq_value]
        omega
      · simp [List.filter_cons, hru, beq_value]
    calc (us.map (fun u => ((r :: t).filter (fun x => key x == u)).length)).sum
        = (us.map (fun u => (if key r = u then 1 else 0)
            + (t.filter (fun x => key x == u)).length)).sum := by
          exact congrArg List.sum (List.map_congr_left (fun u hu => hsplit u))
      _ = (us.map (fun u => if key r = u then 1 else 0)).sum
            + (us.map (fun u => (t.filter (fun x => key x == u)).length)).sum :=
          List.sum_map_add
      _ = us.count (key r) + t.length := by rw [sum_ite_count, ih hall2]
      _ = 1 + t.length := by
          rw [List.count_eq_one_of_mem hnd (hall r (List.mem_cons_self r t))]
      _ = (r :: t).length := by
          simp only [List.length_cons]
          omega

/-- C6: on a successful run, the number of emitted batches equals the
number of distinct categories in the laid-out input's key column, and
the total number of polygons across all batches equals the number of
input records. -/
theorem claim_batch_counts (df : DataFrame) (ys : List (Value × Rat)) (h : Rat)
    (colls : List PolyCollection) (d2 : DataFrame) (df1 : DataFrame) (ks : List Value)
    (hok : chromosome_collections df ys h = .ok (colls, d2))
    (h1 : widthAugmented df = .ok df1)
    (hks : getCol df1 "chrom" = .ok ks) :
    colls.length = (dedup ks).length ∧
    (colls.map (fun pc => pc.verts.length)).sum = df.rows.length := by
  obtain ⟨df1b, gs, h1b, h2, h3, -⟩ := chromosome_collections_ok_iff.mp hok
  rw [h1] at h1b
  injection h1b with h1b
  subst h1b
  obtain ⟨ki, hki, rfl⟩ := groupby_ok_iff.mp h2
  obtain ⟨ki2, hki2, rfl⟩ := getCol_ok_iff.mp hks
  rw [hki] at hki2
  injection hki2 with hki2
  subst hki2
  constructor
  · rw [mapExcept_length h3]
    rw [List.length_map, length_sortValues]
  · have hmapeq : colls.map (fun pc => pc.verts.length)
        = ((sortValues (dedup (df1.rows.map (fun r => r.getD ki (Value.int 0))))).map
            (fun k => (k, DataFrame.mk df1.cols
              (df1.rows.filter (fun r => r.getD ki (Value.int 0) == k))))).map
          (fun p => p.2.rows.length) := by
      refine forall2_map_eq (mapExcept_forall2 h3) _ _ ?_
      intro p pc hpc
      obtain ⟨y0, si, wi, ci, -, -, -, -, rfl⟩ := processGroup_ok_iff.mp hpc
      simp
    rw [hmapeq, List.map_map]
    have hrewrite : ((fun p : Value × DataFrame => p.2.rows.length) ∘
        (fun k => (k, DataFrame.mk df1.cols
          (df1.rows.filter (fun r => r.getD ki (Value.int 0) == k)))))
        = fun u => (df1.rows.filter (fun r => r.getD ki (Value.int 0) == u)).length := rfl
    rw [hrewrite]
    rw [sum_filter_lengths df1.rows _ (fun r => r.getD ki (Value.int 0))
      (nodup_sortValues (nodup_dedup _))
      (fun r hr => by
        rw [mem_sortValues, mem_dedup]
        exact List.mem_map_of_mem _ hr)]
    exact widthAugmented_rows_length h1

/-- The frame actually laid out when `exdf` is passed in: `exdf` with the
derived widths 400 and 300 appended. -/
def exdf1 : DataFrame :=
  DataFrame.mk ["chrom", "start", "end", "colors", "width"]
    [[Value.str "chr1", Value.int 100, Value.int 500, Value.str "red", Value.int 400],
     [Value.str "chr2", Value.int 0, Value.int 300, Value.str "blue", Value.int 300]]

theorem claim_batch_counts_witness :
    ([expc1, expc2] : List PolyCollection).length
      = (dedup [Value.str "chr1", Value.str "chr2"]).length ∧
    (([expc1, expc2] : List PolyCollection).map (fun pc => pc.verts.length)).sum
      = exdf.rows.length :=
  claim_batch_counts exdf exys 1 [expc1, expc2] exdf exdf1
    [Value.str "chr1", Value.str "chr2"]
    (by simp [chromosome_collections, widthAugmented, addWidth, setCol, getCol,
      colIndex, groupby, dedup, dedupAux, sortValues, insertLe, processGroup,
      laneLookup, mapExcept, delCol, rectVerts, Value.toRat, Value.sub, Value.le,
      exdf, exys, expc1, expc2, List.lookup,
      exceptOkBind, exceptErrorBind, exceptMapOk, exceptMapErr, beq_value])
    (by rfl) (by rfl)

/-! ### Order in which batches are emitted -/

/-- Input whose categories are first encountered in the order
`chrY`, `chrX` — the reverse of their sorted order. -/
def ex8df : DataFrame :=
  DataFrame.mk ["chrom", "start", "end", "width", "colors"]
    [[Value.str "chrY", Value.int 10, Value.int 20, Value.int 10, Value.str "red"],
     [Value.str "chrX", Value.int 0, Value.int 5, Value.int 5, Value.str "blue"]]

def ex8ys : List (Value × Rat) := [(Value.str "chrX", 0), (Value.str "chrY", 2)]

/-- C8 counterexample: on `ex8df` the categories are first encountered
in the order `chrY`, `chrX` (so the claim predicts the `chrY` batch —
fill colour `red` — first), but the run emits the `chrX` batch (fill
colour `blue`) first: `groupby` visits the keys in sorted order, not in
first-encounter order. -/
theorem claim_encounter_order_counterexample :
    getCol ex8df "chrom" = .ok [Value.str "chrY", Value.str "chrX"] ∧
    dedup [Value.str "chrY", Value.str "chrX"]
      = [Value.str "chrY", Value.str "chrX"] ∧
    (chromosome_collections ex8df ex8ys 1).map
        (fun p => p.1.map PolyCollection.facecolors)
      = .ok [[Value.str "blue"], [Value.str "red"]] ∧
    ([[Value.str "blue"], [Value.str "red"]] : List (List Value))
      ≠ [[Value.str "red"], [Value.str "blue"]] := by
  refine ⟨by rfl, by rfl, ?_, by decide⟩
  simp [chromosome_collections, widthAugmented, addWidth, setCol, getCol,
    colIndex, groupby, dedup, dedupAux, sortValues, insertLe, processGroup,
    laneLookup, mapExcept, delCol, rectVerts, Value.toRat, Value.sub, Value.le,
    ex8df, ex8ys, List.lookup, Except.map,
    exceptOkBind, exceptErrorBind, exceptMapOk, exceptMapErr, beq_value]

/-- C8 amended: a successful run emits one batch per distinct category,
but in ascending category-key order (pandas `groupby` sorts its keys),
not in the order categories are first encountered. -/
theorem claim_sorted_batch_order (df : DataFrame) (ys : List (Value × Rat)) (h : Rat)
    (colls : List PolyCollection) (d2 : DataFrame) (df1 : DataFrame) (ks : List Value)
    (hok : chromosome_collections df ys h = .ok (colls, d2))
    (h1 : widthAugmented df = .ok df1)
    (hks : getCol df1 "chrom" = .ok ks) :
    ∃ gs, groupby df1 "chrom" = .ok gs ∧
      gs.map Prod.fst = sortValues (dedup ks) ∧
      List.Pairwise (fun a b => Value.le a b = true) (gs.map Prod.fst) ∧
      mapExcept (fun p => processGroup ys h p.1 p.2) gs = .ok colls := by
  obtain ⟨df1b, gs, h1b, h2, h3, -⟩ := chromosome_collections_ok_iff.mp hok
  rw [h1] at h1b
  injection h1b with h1b
  subst h1b
  obtain ⟨ki, hki, rfl⟩ := groupby_ok_iff.mp h2
  obtain ⟨ki2, hki2, rfl⟩ := getCol_ok_iff.mp hks
  rw [hki] at hki2
  injection hki2 with hki2
  subst hki2
  have hfst : ((sortValues (dedup (df1.rows.map (fun r => r.getD ki (Value.int 0))))).map
      (fun k => (k, DataFrame.mk df1.cols
        (df1.rows.filter (fun r => r.getD ki (Value.int 0) == k))))).map Prod.fst
      = sortValues (dedup (df1.rows.map (fun r => r.getD ki (Value.int 0)))) := by
    rw [List.map_map]
    exact List.map_id _
  refine ⟨_, groupby_ok_iff.mpr ⟨ki, hki, rfl⟩, hfst, ?_, h3⟩
  rw [hfst]
  exact sortValues_sorted _

/-- The `chrX` batch of the run on `ex8df` (emitted first). -/
def ex8pcX : PolyCollection :=
  PolyCollection.mk
    [[(0, 0), (0, 0 + 1), (0 + 5, 0 + 1), (0 + 5, 0), (0, 0)]]
    [Value.str "blue"]

/-- The `chrY` batch of the run on `ex8df` (emitted second). -/
def ex8pcY : PolyCollection :=
  PolyCollection.mk
    [[(10, 2), (10, 2 + 1), (10 + 10, 2 + 1), (10 + 10, 2), (10, 2)]]
    [Value.str "red"]

theorem claim_sorted_batch_order_witness :
    ∃ gs, groupby ex8df "chrom" = .ok gs ∧
      gs.map Prod.fst = sortValues (dedup [Value.str "chrY", Value.str "chrX"]) ∧
      List.Pairwise (fun a b => Value.le a b = true) (gs.map Prod.fst) ∧
      mapExcept (fun p => processGroup ex8ys 1 p.1 p.2) gs
        = .ok [ex8pcX, ex8pcY] :=
  claim_sorted_batch_order ex8df ex8ys 1 [ex8pcX, ex8pcY] ex8df ex8df
    [Value.str "chrY", Value.str "chrX"]
    (by simp [chromosome_collections, widthAugmented, addWidth, setCol, getCol,
      colIndex, groupby, dedup, dedupAux, sortValues, insertLe, processGroup,
      laneLookup, mapExcept, delCol, rectVerts, Value.toRat, Value.sub, Value.le,
      ex8df, ex8ys, ex8pcX, ex8pcY, List.lookup,
      exceptOkBind, exceptErrorBind, exceptMapOk, exceptMapErr, beq_value])
    (by rfl) (by rfl)

/-! ### The derived width column, record by record -/

theorem getD_append_self (l : List Value) (v : Value) (d : Value) :
    (l ++ [v]).getD l.length d = v := by
  induction l with
  | nil => rfl
  | cons a t ih => simp [ih]

theorem setCol_new_mem_rows {df : DataFrame} {c : String} {g : List Value → Value}
    (h : c ∉ df.cols) {r : List Value}
    (hr : r ∈ (setCol df c (df.rows.map g)).rows) :
    ∃ r0 ∈ df.rows, r = r0 ++ [g r0] := by
  rw [setCol_new_rows_map h] at hr
  obtain ⟨r0, hr0, rfl⟩ := List.mem_map.mp hr
  exact ⟨r0, hr0, rfl⟩

/-- C3: on an input without a `width` column the engine behaves exactly
as if `width = end - start` had been supplied explicitly — the yielded
batches are identical — and (for integer coordinates) every polygon's
horizontal extent runs from its record's `start` to
`start + (end - start)`. -/
theorem claim_width_derivation (df : DataFrame) (ys : List (Value × Rat)) (h : Rat)
    (ends starts : List Value)
    (hWF : df.WF)
    (hnw : "width" ∉ df.cols)
    (hends : getCol df "end" = .ok ends)
    (hstarts : getCol df "start" = .ok starts) :
    ((chromosome_collections df ys h).map Prod.fst
      = (chromosome_collections
          (setCol df "width" (List.zipWith Value.sub ends starts)) ys h).map Prod.fst)
    ∧ ((∀ v ∈ ends, ∃ n, v = Value.int n) → (∀ v ∈ starts, ∃ n, v = Value.int n) →
      ∀ colls d2, chromosome_collections df ys h = .ok (colls, d2) →
        ∀ pc ∈ colls, ∀ poly ∈ pc.verts,
          ∃ r ei si y0, ∃ sv ev : Int,
            r ∈ df.rows ∧
            colIndex df.cols "end" = some ei ∧
            colIndex df.cols "start" = some si ∧
            r.getD si (Value.int 0) = Value.int sv ∧
            r.getD ei (Value.int 0) = Value.int ev ∧
            poly = rectVerts (sv : Rat) ((ev : Rat) - (sv : Rat)) y0 (y0 + h)) := by
  have hcontains : ¬ df.cols.contains "width" := by simpa using hnw
  obtain ⟨ei0, hei0, hendseq⟩ := getCol_ok_iff.mp hends
  obtain ⟨si0, hsi0, hstartseq⟩ := getCol_ok_iff.mp hstarts
  have hzip : List.zipWith Value.sub ends starts
      = df.rows.map (fun r =>
          Value.sub (r.getD ei0 (Value.int 0)) (r.getD si0 (Value.int 0))) := by
    rw [hendseq, hstartseq, List.zipWith_map, List.zipWith_same]
  have hwa1 : widthAugmented df
      = .ok (setCol df "width" (List.zipWith Value.sub ends starts)) := by
    rw [widthAugmented_of_not_contains hcontains]
    refine addWidth_ok_iff.mpr ⟨ei0, si0, hei0, hsi0, ?_⟩
    rw [hzip]
  have hdfpcols : (setCol df "width" (List.zipWith Value.sub ends starts)).cols.contains
      "width" := by
    rw [setCol_new_cols _ hnw]
    simp
  constructor
  · have hwa2 : widthAugmented (setCol df "width" (List.zipWith Value.sub ends starts))
        = .ok (setCol df "width" (List.zipWith Value.sub ends starts)) :=
      widthAugmented_of_contains hdfpcols
    unfold chromosome_collections
    rw [hwa1, hwa2, exceptOkBind, exceptOkBind]
    cases hgb : groupby (setCol df "width" (List.zipWith Value.sub ends starts))
        "chrom" with
    | error e =>
      rw [exceptErrorBind, exceptErrorBind]
    | ok gs =>
      rw [exceptOkBind, exceptOkBind]
      cases hm : mapExcept (fun p => processGroup ys h p.1 p.2) gs with
      | error e => rw [exceptErrorBind, exceptErrorBind]
      | ok colls0 => rfl
  · intro hendsInt hstartsInt colls d2 hok pc hpc poly hpoly
    obtain ⟨df1, ki, c, si1, wi, ci, y0, h1, hki, hsi1, hwi, hci, hy, hcmem, rfl⟩ :=
      batch_spec hok hpc
    rw [h1] at hwa1
    injection hwa1 with hwa1
    obtain ⟨r1, hr1, rfl⟩ := List.mem_map.mp hpoly
    have hr1rows : r1 ∈ df1.rows := (List.mem_filter.mp hr1).1
    have hdf1 : df1 = setCol df "width" (df.rows.map (fun r =>
        Value.sub (r.getD ei0 (Value.int 0)) (r.getD si0 (Value.int 0)))) := by
      rw [← hzip, ← hwa1]
    obtain ⟨r0, hr0, rfl⟩ := setCol_new_mem_rows hnw (hdf1 ▸ hr1rows)
    have hr0len : r0.length = df.cols.length := hWF r0 hr0
    -- the start index in the augmented frame is the original one
    have hsi1eq : si1 = si0 := by
      have : colIndex df1.cols "start" = some si0 := by
        rw [hdf1, setCol_new_cols _ hnw]
        exact colIndex_append_of_some _ hsi0
      rw [this] at hsi1
      injection hsi1 with hx
      exact hx.symm
    -- the width index is the appended column
    have hwieq : wi = df.cols.length := by
      have : colIndex df1.cols "width" = some df.cols.length := by
        rw [hdf1, setCol_new_cols _ hnw]
        exact colIndex_append_self hnw
      rw [this] at hwi
      injection hwi with hwi
      exact hwi.symm
    -- integer start and end cells
    obtain ⟨sv, hsv⟩ := hstartsInt (r0.getD si0 (Value.int 0))
      (by rw [hstartseq]; exact List.mem_map_of_mem _ hr0)
    obtain ⟨ev, hev⟩ := hendsInt (r0.getD ei0 (Value.int 0))
      (by rw [hendseq]; exact List.mem_map_of_mem _ hr0)
    refine ⟨r0, ei0, si0, y0, sv, ev, hr0, hei0, hsi0, hsv, hev, ?_⟩
    have hstartcell : (r0 ++ [Value.sub (r0.getD ei0 (Value.int 0))
        (r0.getD si0 (Value.int 0))]).getD si1 (Value.int 0)
        = Value.int sv := by
      rw [hsi1eq, List.getD_append _ _ _ si0 (by
        rw [hr0len]; exact colIndex_lt_length hsi0)]
      exact hsv
    have hwidthcell : (r0 ++ [Value.sub (r0.getD ei0 (Value.int 0))
        (r0.getD si0 (Value.int 0))]).getD wi (Value.int 0)
        = Value.int (ev - sv) := by
      rw [hwieq, ← hr0len, getD_append_self, hsv, hev]
      rfl
    rw [hstartcell, hwidthcell]
    have hcast : (Value.int (ev - sv)).toRat = (ev : Rat) - (sv : Rat) := by
      simp [Value.toRat]
    rw [hcast]
    rfl

theorem claim_width_derivation_witness :
    ((chromosome_collections exdf exys 1).map Prod.fst
      = (chromosome_collections
          (setCol exdf "width" (List.zipWith Value.sub
            [Value.int 500, Value.int 300]
            [Value.int 100, Value.int 0])) exys 1).map Prod.fst)
    ∧ ((∀ v ∈ [Value.int 500, Value.int 300], ∃ n, v = Value.int n) →
      (∀ v ∈ [Value.int 100, Value.int 0], ∃ n, v = Value.int n) →
      ∀ colls d2, chromosome_collections exdf exys 1 = .ok (colls, d2) →
        ∀ pc ∈ colls, ∀ poly ∈ pc.verts,
          ∃ r ei si y0, ∃ sv ev : Int,
            r ∈ exdf.rows ∧
            colIndex exdf.cols "end" = some ei ∧
            colIndex exdf.cols "start" = some si ∧
            r.getD si (Value.int 0) = Value.int sv ∧
            r.getD ei (Value.int 0) = Value.int ev ∧
            poly = rectVerts (sv : Rat) ((ev : Rat) - (sv : Rat)) y0 (y0 + 1)) :=
  claim_width_derivation exdf exys 1
    [Value.int 500, Value.int 300] [Value.int 100, Value.int 0]
    (by simp [DataFrame.WF, exdf]) (by decide) (by rfl) (by rfl)
